import Mathlib

/-!
Shallow embedding of the seismic-cube processing core of `app.py`
(class `SeismicCubeProcessor` and the `/api/slice` route).

Machine floats are modelled by `FVal` (a finite rational or one of the
non-finite IEEE values); `np.nan_to_num(_, nan=0, posinf=0, neginf=0)`
becomes `nanToNum`.  The azimuth formula
`(np.degrees(np.arctan2(dx, dy)) + 360) % 360` is kept abstract as a
function parameter `az : ℚ → ℚ → ℚ` applied to `(dx, dy)`; no claim
below depends on its values.
-/

/-- A floating-point sample value: finite, NaN, or a signed infinity. -/
inductive FVal where
  | finite (q : ℚ)
  | nan
  | posinf
  | neginf
deriving DecidableEq

def FVal.isFinite : FVal → Bool
  | .finite _ => true
  | _ => false

/-- Elementwise `np.nan_to_num(v, nan=0.0, posinf=0.0, neginf=0.0)`. -/
def nanToNum (v : FVal) : FVal :=
  if v.isFinite then v else .finite 0

/-- Numeric value of a (finite) sample; non-finite values have no numeric
meaning and are mapped to `0`, which is only ever used after `nanToNum`. -/
def FVal.toRat : FVal → ℚ
  | .finite q => q
  | _ => 0

/-- `np.nan_to_num` applied to a whole trace (line 183 of `app.py`). -/
def sanitizeVec (xs : List FVal) : List FVal :=
  xs.map nanToNum

/-- Trace placement, `app.py` lines 136-153: keep non-zero header ids,
otherwise synthesize `(i // grid_size + 1, i % grid_size + 1)` with
`grid_size = int(np.sqrt(n_traces))`. -/
def resolvePlacement (nTraces i : ℕ) (il xl : Int) : Int × Int :=
  if il ≠ 0 ∧ xl ≠ 0 then (il, xl)
  else (((i / Nat.sqrt nTraces : ℕ) : Int) + 1, ((i % Nat.sqrt nTraces : ℕ) : Int) + 1)

/-- One raw input trace as decoded by the format collaborator: header grid
ids, primary coordinates (already resolved through the `CDP`/`Source`
fallback, `0` meaning absent), and the sample vector. -/
structure RawTrace where
  il : Int
  xl : Int
  x : ℚ
  y : ℚ
  samples : List FVal
deriving DecidableEq

/-- One resolved entry of the `inlines`/`xlines`/`x_coords`/`y_coords`
parallel lists built while reading headers. -/
structure GEntry where
  il : Int
  xl : Int
  x : ℚ
  y : ℚ
deriving DecidableEq

/-- Trace Locator for one trace at ordinal position `i` (lines 136-153):
grid placement via `resolvePlacement`; the fallback path appends `(0, 0)`
as coordinates (lines 145-146). -/
def locateTrace (nTraces i : ℕ) (t : RawTrace) : GEntry :=
  if t.il ≠ 0 ∧ t.xl ≠ 0 then ⟨t.il, t.xl, t.x, t.y⟩
  else ⟨(resolvePlacement nTraces i t.il t.xl).1, (resolvePlacement nTraces i t.il t.xl).2, 0, 0⟩

/-- `sorted(list(set(xs)))` (lines 155-156). -/
def uniqueSorted (xs : List Int) : List Int :=
  List.insertionSort (· ≤ ·) xs.dedup

/-- The entries whose coordinates are both non-zero — exactly the entries
admitted into `coord_map` (line 247). -/
def coordFilter (es : List GEntry) : List GEntry :=
  es.filter (fun e => decide (e.x ≠ 0 ∧ e.y ≠ 0))

/-- Lookup in `coord_map = {(il, xl): (x, y) ...}`: the dict keeps the
last write for a key, i.e. the last qualifying entry. -/
def coordMapGet (es : List GEntry) (k : Int × Int) : Option (ℚ × ℚ) :=
  ((coordFilter es).reverse.find? (fun e => decide ((e.il, e.xl) = k))).map (fun e => (e.x, e.y))

/-- `len(coord_map)`: number of distinct keys among qualifying entries. -/
def coordMapSize (es : List GEntry) : ℕ :=
  ((coordFilter es).map (fun e => (e.il, e.xl))).dedup.length

/-- Python `min` over a list of ints (junk `0` on the empty list, which
raises in Python and is never reached by the model's callers). -/
def listMinI (xs : List Int) : Int :=
  match xs with
  | [] => 0
  | x :: t => t.foldl min x

/-- Python `max` over a list of ints. -/
def listMaxI (xs : List Int) : Int :=
  match xs with
  | [] => 0
  | x :: t => t.foldl max x

/-- `p1 and p2` for the two candidate coordinate points. -/
def pairFound (p : Option (ℚ × ℚ) × Option (ℚ × ℚ)) : Bool :=
  p.1.isSome && p.2.isSome

/-- The fallback scan loops (lines 264-269 and 279-284): iterate over the
axis values, overwriting `(p1, p2)` each round, and stop early when both
are present; if the loop never breaks, the pair from the last round (or
the initial corner pair for an empty axis) is kept. -/
def pairScan (g1 g2 : Int → Option (ℚ × ℚ)) :
    List Int → Option (ℚ × ℚ) × Option (ℚ × ℚ) → Option (ℚ × ℚ) × Option (ℚ × ℚ)
  | [], acc => acc
  | v :: rest, _ =>
      if (g1 v).isSome && (g2 v).isSome then (g1 v, g2 v)
      else pairScan g1 g2 rest (g1 v, g2 v)

/-- Point pair used for the inline azimuth (lines 256-269): corners
`(min_il, min_xl)` and `(max_il, min_xl)`, else scan the crosslines. -/
def ilPair (cm : Int × Int → Option (ℚ × ℚ)) (uIl uXl : List Int) :
    Option (ℚ × ℚ) × Option (ℚ × ℚ) :=
  let c0 := (cm (listMinI uIl, listMinI uXl), cm (listMaxI uIl, listMinI uXl))
  if pairFound c0 then c0
  else pairScan (fun v => cm (listMinI uIl, v)) (fun v => cm (listMaxI uIl, v)) uXl c0

/-- Point pair used for the crossline azimuth (lines 271-284). -/
def xlPair (cm : Int × Int → Option (ℚ × ℚ)) (uIl uXl : List Int) :
    Option (ℚ × ℚ) × Option (ℚ × ℚ) :=
  let c0 := (cm (listMinI uIl, listMinI uXl), cm (listMinI uIl, listMaxI uXl))
  if pairFound c0 then c0
  else pairScan (fun v => cm (v, listMinI uXl)) (fun v => cm (v, listMaxI uXl)) uIl c0

/-- Lines 286-297: azimuth from a point pair when both points are present,
otherwise the directional default. -/
def azFromPair (az : ℚ → ℚ → ℚ) (dflt : ℚ) : Option (ℚ × ℚ) × Option (ℚ × ℚ) → ℚ
  | (some p1, some p2) => az (p2.1 - p1.1) (p2.2 - p1.2)
  | _ => dflt

/-- Survey geometry result. -/
structure SurveyGeometry where
  inline_azimuth : ℚ
  xline_azimuth : ℚ
  has_coordinates : Bool
deriving DecidableEq

/-- `calculate_survey_geometry` (lines 243-313). -/
def calcGeometry (az : ℚ → ℚ → ℚ) (es : List GEntry) (uIl uXl : List Int) : SurveyGeometry :=
  if coordMapSize es < 4 then ⟨0, 90, false⟩
  else
    ⟨azFromPair az 0 (ilPair (coordMapGet es) uIl uXl),
     azFromPair az 90 (xlPair (coordMapGet es) uIl uXl),
     true⟩

/-- A concrete stand-in for the azimuth formula, used in closed instances. -/
def azZero : ℚ → ℚ → ℚ := fun _ _ => 0

/- Theorems about trace placement (claim C2). -/

/-- Claim C2: a trace with both header ids non-zero keeps them; otherwise
its placement is `(i div g + 1, i mod g + 1)` with
`g = floor (sqrt nTraces)`; in particular in a 100-trace set a zero-header
trace at position `i` lands on `(i div 10 + 1, i mod 10 + 1)`.  Every
trace receives a placement (`resolvePlacement` is total). -/
theorem c2_trace_placement (nTraces i : ℕ) (il xl : Int) :
    (il ≠ 0 → xl ≠ 0 → resolvePlacement nTraces i il xl = (il, xl))
    ∧ (il = 0 ∨ xl = 0 →
        resolvePlacement nTraces i il xl =
          (((i / Nat.sqrt nTraces : ℕ) : Int) + 1, ((i % Nat.sqrt nTraces : ℕ) : Int) + 1))
    ∧ resolvePlacement 100 i 0 0 = (((i / 10 : ℕ) : Int) + 1, ((i % 10 : ℕ) : Int) + 1) := by
  refine ⟨fun h1 h2 => ?_, fun h => ?_, ?_⟩
  · simp [resolvePlacement, h1, h2]
  · have : ¬(il ≠ 0 ∧ xl ≠ 0) := by
      rcases h with h | h <;> simp [h]
    simp [resolvePlacement, this]
  · have h10 : Nat.sqrt 100 = 10 := by norm_num
    simp [resolvePlacement, h10]

theorem c2_trace_placement_witness :
    resolvePlacement 100 7 5 9 = (5, 9)
    ∧ resolvePlacement 100 37 0 0 = (((37 / 10 : ℕ) : Int) + 1, ((37 % 10 : ℕ) : Int) + 1) := by
  exact ⟨(c2_trace_placement 100 7 5 9).1 (by decide) (by decide),
         (c2_trace_placement 100 37 0 0).2.2⟩

/- Theorems about the geometry degenerate default (claim C7). -/

/-- Claim C7: if fewer than 4 entries carry a non-zero (x, y) pair, the
geometry estimator returns exactly azimuths (0, 90) with
`has_coordinates = false`, as a normal value (the function is total). -/
theorem c7_geometry_default (az : ℚ → ℚ → ℚ) (es : List GEntry) (uIl uXl : List Int)
    (h : (coordFilter es).length < 4) :
    calcGeometry az es uIl uXl = ⟨0, 90, false⟩ := by
  have hsize : coordMapSize es < 4 := by
    have hded : ((coordFilter es).map (fun e => (e.il, e.xl))).dedup.length ≤
        ((coordFilter es).map (fun e => (e.il, e.xl))).length :=
      (List.dedup_sublist _).length_le
    have hmap : ((coordFilter es).map (fun e => (e.il, e.xl))).length = (coordFilter es).length :=
      List.length_map _ _
    calc coordMapSize es ≤ ((coordFilter es).map (fun e => (e.il, e.xl))).length := hded
      _ = (coordFilter es).length := hmap
      _ < 4 := h
  simp [calcGeometry, hsize]

theorem c7_geometry_default_witness :
    calcGeometry azZero [⟨1, 10, 3, 4⟩, ⟨1, 20, 5, 6⟩, ⟨2, 10, 0, 7⟩, ⟨2, 20, 8, 9⟩]
        [1, 2] [10, 20] = ⟨0, 90, false⟩ :=
  c7_geometry_default azZero _ _ _ (by decide)

/- Theorems about coordinate filtering (claim C10). -/

/-- Claim C10: an entry with a zero `x` or a zero `y` contributes nothing
to the coordinate map: lookups and the size compared against the
threshold of 4 are unchanged by its presence. -/
theorem c10_coordinate_filter (es1 es2 : List GEntry) (e : GEntry)
    (h : e.x = 0 ∨ e.y = 0) :
    (∀ k, coordMapGet (es1 ++ e :: es2) k = coordMapGet (es1 ++ es2) k)
    ∧ coordMapSize (es1 ++ e :: es2) = coordMapSize (es1 ++ es2) := by
  have hpred : (fun e : GEntry => decide (e.x ≠ 0 ∧ e.y ≠ 0)) e = false := by
    rcases h with h | h <;> simp [h]
  have hfe : coordFilter (es1 ++ e :: es2) = coordFilter (es1 ++ es2) := by
    simp only [coordFilter, List.filter_append, List.filter_cons, hpred, if_neg Bool.false_ne_true]
  exact ⟨fun k => by simp only [coordMapGet, hfe], by simp only [coordMapSize, hfe]⟩

theorem c10_coordinate_filter_witness :
    coordMapGet ([⟨1, 10, 3, 4⟩] ++ (⟨2, 20, 0, 5⟩ : GEntry) :: [⟨3, 30, 6, 7⟩]) (2, 20) =
      coordMapGet ([⟨1, 10, 3, 4⟩] ++ [⟨3, 30, 6, 7⟩]) (2, 20)
    ∧ coordMapSize ([⟨1, 10, 3, 4⟩] ++ (⟨2, 20, 0, 5⟩ : GEntry) :: [⟨3, 30, 6, 7⟩]) =
      coordMapSize ([⟨1, 10, 3, 4⟩] ++ [⟨3, 30, 6, 7⟩]) :=
  ⟨(c10_coordinate_filter [⟨1, 10, 3, 4⟩] [⟨3, 30, 6, 7⟩] ⟨2, 20, 0, 5⟩ (Or.inl rfl)).1 (2, 20),
   (c10_coordinate_filter [⟨1, 10, 3, 4⟩] [⟨3, 30, 6, 7⟩] ⟨2, 20, 0, 5⟩ (Or.inl rfl)).2⟩

/- Theorems about the has_coordinates flag (claim C8). -/

/-- Claim C8 as stated is false: with at least 4 coordinate entries and
both axis pair searches failing, the code still returns
`has_coordinates = true` (line 302 sets it unconditionally). -/
theorem c8_counterexample :
    4 ≤ coordMapSize [⟨1, 10, 1, 1⟩, ⟨1, 20, 2, 1⟩, ⟨2, 30, 3, 1⟩, ⟨3, 30, 4, 1⟩]
    ∧ pairFound (ilPair
        (coordMapGet [⟨1, 10, 1, 1⟩, ⟨1, 20, 2, 1⟩, ⟨2, 30, 3, 1⟩, ⟨3, 30, 4, 1⟩])
        [1, 2, 3] [10, 20, 30]) = false
    ∧ pairFound (xlPair
        (coordMapGet [⟨1, 10, 1, 1⟩, ⟨1, 20, 2, 1⟩, ⟨2, 30, 3, 1⟩, ⟨3, 30, 4, 1⟩])
        [1, 2, 3] [10, 20, 30]) = false
    ∧ (calcGeometry azZero [⟨1, 10, 1, 1⟩, ⟨1, 20, 2, 1⟩, ⟨2, 30, 3, 1⟩, ⟨3, 30, 4, 1⟩]
        [1, 2, 3] [10, 20, 30]).has_coordinates = true := by
  refine ⟨by decide, by decide, by decide, by decide⟩

/-- Claim C8 amended: when at least 4 distinct coordinate entries exist,
`has_coordinates` is `true` unconditionally (it does not reflect axis
success); each axis whose pair search fails keeps its directional default
(0 degrees for inline, 90 for crossline). -/
theorem c8_geometry_flag (az : ℚ → ℚ → ℚ) (es : List GEntry) (uIl uXl : List Int)
    (h4 : 4 ≤ coordMapSize es) :
    (calcGeometry az es uIl uXl).has_coordinates = true
    ∧ (pairFound (ilPair (coordMapGet es) uIl uXl) = false →
        (calcGeometry az es uIl uXl).inline_azimuth = 0)
    ∧ (pairFound (xlPair (coordMapGet es) uIl uXl) = false →
        (calcGeometry az es uIl uXl).xline_azimuth = 90) := by
  have hlt : ¬ coordMapSize es < 4 := not_lt.mpr h4
  refine ⟨by simp [calcGeometry, hlt], fun hf => ?_, fun hf => ?_⟩
  · have : azFromPair az 0 (ilPair (coordMapGet es) uIl uXl) = 0 := by
      rcases hp : ilPair (coordMapGet es) uIl uXl with ⟨p1, p2⟩
      rcases p1 with _ | v1 <;> rcases p2 with _ | v2 <;>
        simp_all [pairFound, azFromPair]
    simp [calcGeometry, hlt, this]
  · have : azFromPair az 90 (xlPair (coordMapGet es) uIl uXl) = 90 := by
      rcases hp : xlPair (coordMapGet es) uIl uXl with ⟨p1, p2⟩
      rcases p1 with _ | v1 <;> rcases p2 with _ | v2 <;>
        simp_all [pairFound, azFromPair]
    simp [calcGeometry, hlt, this]

theorem c8_geometry_flag_witness :
    (calcGeometry azZero [⟨1, 10, 1, 1⟩, ⟨1, 20, 2, 1⟩, ⟨2, 30, 3, 1⟩, ⟨5, 30, 4, 1⟩]
        [1, 2, 5] [10, 20, 30]).has_coordinates = true
    ∧ (pairFound (ilPair
        (coordMapGet [⟨1, 10, 1, 1⟩, ⟨1, 20, 2, 1⟩, ⟨2, 30, 3, 1⟩, ⟨5, 30, 4, 1⟩])
        [1, 2, 5] [10, 20, 30]) = false →
        (calcGeometry azZero [⟨1, 10, 1, 1⟩, ⟨1, 20, 2, 1⟩, ⟨2, 30, 3, 1⟩, ⟨5, 30, 4, 1⟩]
          [1, 2, 5] [10, 20, 30]).inline_azimuth = 0)
    ∧ (pairFound (xlPair
        (coordMapGet [⟨1, 10, 1, 1⟩, ⟨1, 20, 2, 1⟩, ⟨2, 30, 3, 1⟩, ⟨5, 30, 4, 1⟩])
        [1, 2, 5] [10, 20, 30]) = false →
        (calcGeometry azZero [⟨1, 10, 1, 1⟩, ⟨1, 20, 2, 1⟩, ⟨2, 30, 3, 1⟩, ⟨5, 30, 4, 1⟩]
          [1, 2, 5] [10, 20, 30]).xline_azimuth = 90) :=
  c8_geometry_flag azZero [⟨1, 10, 1, 1⟩, ⟨1, 20, 2, 1⟩, ⟨2, 30, 3, 1⟩, ⟨5, 30, 4, 1⟩]
    [1, 2, 5] [10, 20, 30] (by decide)

/- Cube assembly (lines 167-188). -/

/-- A trace as consumed by the scatter loop: resolved grid placement plus
the decoded sample vector `f.trace[i]`. -/
structure TraceRec where
  il : Int
  xl : Int
  samples : List FVal
deriving DecidableEq

/-- The lookup tables `inline_map`/`xline_map` (lines 170-171):
`{value: index for index, value in enumerate(axis)}` together with the
membership test `value in map`.  For the duplicate-free axis lists the
dict is exactly position lookup. -/
def idxOf? (a : Int) : List Int → Option ℕ
  | [] => none
  | x :: t => if x = a then some 0 else (idxOf? a t).map (· + 1)

/-- `np.zeros((nIl, nXl, nS))` (line 168). -/
def emptyCube (nIl nXl nS : ℕ) : List (List (List FVal)) :=
  List.replicate nIl (List.replicate nXl (List.replicate nS (FVal.finite 0)))

/-- One iteration of the scatter loop (lines 173-188): when both lookups
succeed, overwrite the cell with the sanitized trace; otherwise skip. -/
def writeTrace (uIl uXl : List Int) (c : List (List (List FVal))) (t : TraceRec) :
    List (List (List FVal)) :=
  match idxOf? t.il uIl, idxOf? t.xl uXl with
  | some i, some j => c.set i ((c.getD i []).set j (sanitizeVec t.samples))
  | _, _ => c

/-- The Cube Assembler: zero-initialized volume, then the scatter loop. -/
def buildCube (uIl uXl : List Int) (nS : ℕ) (ts : List TraceRec) :
    List (List (List FVal)) :=
  ts.foldl (writeTrace uIl uXl) (emptyCube uIl.length uXl.length nS)

/-- `cube[i][j]`: the per-cell sample vector. -/
def cellOf (c : List (List (List FVal))) (i j : ℕ) : List FVal :=
  (c.getD i []).getD j []

lemma getD_set_self {α : Type} : ∀ (l : List α) (n : ℕ) (a d : α),
    n < l.length → (l.set n a).getD n d = a := by
  intro l
  induction l with
  | nil => intro n a d h; simp at h
  | cons x t ih =>
      intro n a d h
      cases n with
      | zero => simp [List.set]
      | succ m =>
          simp only [List.set, List.getD_cons_succ]
          exact ih m a d (by simpa using h)

lemma getD_set_ne {α : Type} : ∀ (l : List α) (n m : ℕ) (a d : α),
    n ≠ m → (l.set n a).getD m d = l.getD m d := by
  intro l
  induction l with
  | nil => intro n m a d _; simp [List.set]
  | cons x t ih =>
      intro n m a d h
      cases n with
      | zero =>
          cases m with
          | zero => exact absurd rfl h
          | succ k => simp [List.set]
      | succ p =>
          cases m with
          | zero => simp [List.set]
          | succ k =>
              simp only [List.set, List.getD_cons_succ]
              exact ih p k a d (fun hc => h (by rw [hc]))

lemma idxOf?_lt : ∀ (l : List Int) (a : Int) (i : ℕ), idxOf? a l = some i → i < l.length := by
  intro l
  induction l with
  | nil => intro a i h; simp [idxOf?] at h
  | cons x t ih =>
      intro a i h
      by_cases hx : x = a
      · simp only [idxOf?, if_pos hx, Option.some.injEq] at h
        subst h
        simp [List.length_cons]
      · simp only [idxOf?, if_neg hx, Option.map_eq_some'] at h
        obtain ⟨j, hj, rfl⟩ := h
        have := ih a j hj
        simp only [List.length_cons]
        omega

lemma writeTrace_length (uIl uXl : List Int) (c : List (List (List FVal))) (t : TraceRec) :
    (writeTrace uIl uXl c t).length = c.length := by
  unfold writeTrace
  rcases idxOf? t.il uIl with _ | i <;> rcases idxOf? t.xl uXl with _ | j <;>
    simp [List.length_set]

lemma getD_mem {α : Type} (l : List α) (i : ℕ) (d : α) (h : i < l.length) :
    l.getD i d ∈ l := by
  rw [List.getD_eq_getElem l d h]
  exact List.getElem_mem h

lemma writeTrace_rows (uIl uXl : List Int) (c : List (List (List FVal))) (t : TraceRec)
    (hlen : c.length = uIl.length) (hrows : ∀ r ∈ c, r.length = uXl.length) :
    ∀ r ∈ writeTrace uIl uXl c t, r.length = uXl.length := by
  unfold writeTrace
  rcases hi : idxOf? t.il uIl with _ | i
  · exact hrows
  · rcases hj : idxOf? t.xl uXl with _ | j
    · exact hrows
    · intro r hr
      rcases List.mem_or_eq_of_mem_set hr with hr0 | rfl
      · exact hrows r hr0
      · rw [List.length_set]
        exact hrows _ (getD_mem c i [] (hlen ▸ idxOf?_lt uIl t.il i hi))

lemma cell_write (uIl uXl : List Int) (c : List (List (List FVal))) (t : TraceRec)
    (i j : ℕ) (hi : idxOf? t.il uIl = some i) (hj : idxOf? t.xl uXl = some j)
    (hlen : c.length = uIl.length) (hrows : ∀ r ∈ c, r.length = uXl.length) :
    cellOf (writeTrace uIl uXl c t) i j = sanitizeVec t.samples := by
  have hi2 : i < c.length := hlen ▸ idxOf?_lt uIl t.il i hi
  have hj2 : j < (c.getD i []).length := by
    rw [hrows _ (getD_mem c i [] hi2)]
    exact idxOf?_lt uXl t.xl j hj
  unfold writeTrace
  rw [hi, hj]
  unfold cellOf
  rw [getD_set_self c i _ [] hi2, getD_set_self _ j _ [] hj2]

lemma writeTrace_miss (uIl uXl : List Int) (c : List (List (List FVal))) (t : TraceRec)
    (h : idxOf? t.il uIl = none ∨ idxOf? t.xl uXl = none) :
    writeTrace uIl uXl c t = c := by
  unfold writeTrace
  rcases h with h | h
  · rw [h]
  · rw [h]
    rcases idxOf? t.il uIl with _ | i <;> rfl

lemma writeTrace_hit (uIl uXl : List Int) (c : List (List (List FVal))) (t : TraceRec)
    (i j : ℕ) (hi : idxOf? t.il uIl = some i) (hj : idxOf? t.xl uXl = some j) :
    writeTrace uIl uXl c t = c.set i ((c.getD i []).set j (sanitizeVec t.samples)) := by
  unfold writeTrace
  rw [hi, hj]

lemma cell_skip (uIl uXl : List Int) (c : List (List (List FVal))) (t : TraceRec)
    (i j : ℕ)
    (h : ¬(idxOf? t.il uIl = some i ∧ idxOf? t.xl uXl = some j)) :
    cellOf (writeTrace uIl uXl c t) i j = cellOf c i j := by
  rcases hi : idxOf? t.il uIl with _ | i2
  · rw [writeTrace_miss uIl uXl c t (Or.inl hi)]
  rcases hj : idxOf? t.xl uXl with _ | j2
  · rw [writeTrace_miss uIl uXl c t (Or.inr hj)]
  rw [writeTrace_hit uIl uXl c t i2 j2 hi hj]
  by_cases hii : i2 = i
  · subst hii
    have hjj : j2 ≠ j := by
      intro hc; exact h ⟨hi, hc ▸ hj⟩
    by_cases hlt : i2 < c.length
    · unfold cellOf
      rw [getD_set_self c i2 _ [] hlt, getD_set_ne _ j2 j _ [] hjj]
    · rw [List.set_eq_of_length_le (Nat.le_of_not_lt hlt)]
  · unfold cellOf
    rw [getD_set_ne c i2 i _ [] hii]

lemma foldl_cell_skip (uIl uXl : List Int) (i j : ℕ) :
    ∀ (ts : List TraceRec) (c : List (List (List FVal))),
      (∀ t ∈ ts, ¬(idxOf? t.il uIl = some i ∧ idxOf? t.xl uXl = some j)) →
      cellOf (ts.foldl (writeTrace uIl uXl) c) i j = cellOf c i j := by
  intro ts
  induction ts with
  | nil => intro c _; rfl
  | cons t rest ih =>
      intro c hskip
      rw [List.foldl_cons, ih _ (fun t2 ht2 => hskip t2 (List.mem_cons_of_mem t ht2)),
        cell_skip uIl uXl c t i j (hskip t (List.mem_cons_self t rest))]

lemma foldl_cell_main (uIl uXl : List Int) (i j : ℕ) :
    ∀ (ts : List TraceRec) (c : List (List (List FVal))) (p : ℕ) (hp : p < ts.length),
      c.length = uIl.length → (∀ r ∈ c, r.length = uXl.length) →
      idxOf? (ts.get ⟨p, hp⟩).il uIl = some i →
      idxOf? (ts.get ⟨p, hp⟩).xl uXl = some j →
      (∀ q : Fin ts.length, p < q.val →
        ¬(idxOf? (ts.get q).il uIl = some i ∧ idxOf? (ts.get q).xl uXl = some j)) →
      cellOf (ts.foldl (writeTrace uIl uXl) c) i j = sanitizeVec (ts.get ⟨p, hp⟩).samples := by
  intro ts
  induction ts with
  | nil => intro c p hp; simp at hp
  | cons t rest ih =>
      intro c p hp hlen hrows hi hj hlater
      rw [List.foldl_cons]
      cases p with
      | zero =>
          have hskip : ∀ t2 ∈ rest,
              ¬(idxOf? t2.il uIl = some i ∧ idxOf? t2.xl uXl = some j) := by
            intro t2 ht2
            obtain ⟨q, hq⟩ := List.mem_iff_get.mp ht2
            have := hlater q.succ (Nat.succ_pos q.val)
            rw [List.get_cons_succ', hq] at this
            exact this
          rw [foldl_cell_skip uIl uXl i j rest _ hskip]
          exact cell_write uIl uXl c t i j hi hj hlen hrows
      | succ p2 =>
          have hp2 : p2 < rest.length := by simpa using hp
          have hlen2 : (writeTrace uIl uXl c t).length = uIl.length := by
            rw [writeTrace_length]; exact hlen
          have hrows2 := writeTrace_rows uIl uXl c t hlen hrows
          have hlater2 : ∀ q : Fin rest.length, p2 < q.val →
              ¬(idxOf? (rest.get q).il uIl = some i ∧ idxOf? (rest.get q).xl uXl = some j) := by
            intro q hq
            have := hlater q.succ (by simpa using Nat.succ_lt_succ hq)
            rw [List.get_cons_succ'] at this
            exact this
          exact ih (writeTrace uIl uXl c t) p2 hp2 hlen2 hrows2 hi hj hlater2

/-- Claim C1: (a) the cell addressed by a trace whose resolved placement
is found in both lookup tables holds that trace's sanitized sample vector
provided no later trace resolves to the same cell (so duplicates are
last-writer-wins); (b) a trace missing from either lookup table is
skipped: appending it leaves the assembled cube unchanged (assembly never
fails, `buildCube` being total). -/
theorem c1_cube_assembly :
    (∀ (uIl uXl : List Int) (nS : ℕ) (ts : List TraceRec) (p : ℕ) (hp : p < ts.length)
        (i j : ℕ),
      idxOf? (ts.get ⟨p, hp⟩).il uIl = some i →
      idxOf? (ts.get ⟨p, hp⟩).xl uXl = some j →
      (∀ q : Fin ts.length, p < q.val →
        ¬(idxOf? (ts.get q).il uIl = some i ∧ idxOf? (ts.get q).xl uXl = some j)) →
      cellOf (buildCube uIl uXl nS ts) i j = sanitizeVec (ts.get ⟨p, hp⟩).samples)
    ∧ (∀ (uIl uXl : List Int) (nS : ℕ) (ts : List TraceRec) (t : TraceRec),
        (idxOf? t.il uIl = none ∨ idxOf? t.xl uXl = none) →
        buildCube uIl uXl nS (ts ++ [t]) = buildCube uIl uXl nS ts) := by
  constructor
  · intro uIl uXl nS ts p hp i j hi hj hlater
    exact foldl_cell_main uIl uXl i j ts (emptyCube uIl.length uXl.length nS) p hp
      (by simp [emptyCube]) (by intro r hr; rw [List.eq_of_mem_replicate hr]; simp)
      hi hj hlater
  · intro uIl uXl nS ts t h
    unfold buildCube
    rw [List.foldl_append, List.foldl_cons, List.foldl_nil]
    unfold writeTrace
    rcases h with h | h
    · rw [h]
    · rw [h]
      rcases idxOf? t.il uIl with _ | i <;> rfl

theorem c1_cube_assembly_witness :
    cellOf (buildCube [1, 2] [10, 20] 2
      [⟨1, 10, [FVal.nan, FVal.finite 5]⟩, ⟨2, 20, [FVal.finite 1, FVal.finite 2]⟩]) 0 0 =
      sanitizeVec [FVal.nan, FVal.finite 5]
    ∧ buildCube [1, 2] [10, 20] 2
        ([⟨1, 10, [FVal.nan, FVal.finite 5]⟩] ++ [⟨7, 10, [FVal.finite 3, FVal.finite 4]⟩]) =
      buildCube [1, 2] [10, 20] 2 [⟨1, 10, [FVal.nan, FVal.finite 5]⟩] := by
  refine ⟨c1_cube_assembly.1 [1, 2] [10, 20] 2
      [⟨1, 10, [FVal.nan, FVal.finite 5]⟩, ⟨2, 20, [FVal.finite 1, FVal.finite 2]⟩]
      0 (by decide) 0 0 (by decide) (by decide) (by decide),
    c1_cube_assembly.2 [1, 2] [10, 20] 2 [⟨1, 10, [FVal.nan, FVal.finite 5]⟩]
      ⟨7, 10, [FVal.finite 3, FVal.finite 4]⟩ (Or.inl (by decide))⟩

/- Slice extraction (get_slice_data, lines 413-463, and the route
get_slice, lines 621-643). -/

/-- The three slice axes accepted by the route. -/
inductive SliceType where
  | il
  | xl
  | sample
deriving DecidableEq

/-- The payload of a successful slice request: the 2-D amplitude plane
and the two coordinate axes (`coordinates.x` and `coordinates.y`); the
per-slice statistics of lines 457-462 are computed over `data`. -/
structure SliceResult where
  data : List (List FVal)
  coordsX : List ℚ
  coordsY : List ℚ
deriving DecidableEq

/-- `np.nan_to_num` over a 2-D plane (line 445). -/
def cleanPlane (m : List (List FVal)) : List (List FVal) :=
  m.map sanitizeVec

/-- `data.T` for a rectangular 2-D array (line 449): row `j` of the
result is column `j` of the input. -/
def transposeRect (m : List (List FVal)) : List (List FVal) :=
  (List.range (m.headD []).length).map (fun j => m.map (fun r => r.getD j (FVal.finite 0)))

/-- `get_slice_data` (lines 413-463): extract the requested plane, clean
it, transpose for inline/xline, and pair it with its coordinate axes. -/
def getSliceData (data : List (List (List FVal))) (ilC xlC : List Int) (sC : List ℚ)
    (ty : SliceType) (index : ℕ) : SliceResult :=
  match ty with
  | .il =>
      ⟨transposeRect (cleanPlane (data.getD index [])),
       xlC.map (fun v => (v : ℚ)), sC⟩
  | .xl =>
      ⟨transposeRect (cleanPlane (data.map (fun row => row.getD index []))),
       ilC.map (fun v => (v : ℚ)), sC⟩
  | .sample =>
      ⟨cleanPlane (data.map (fun row => row.map (fun col => col.getD index (FVal.finite 0)))),
       ilC.map (fun v => (v : ℚ)), xlC.map (fun v => (v : ℚ))⟩

/-- The processor state the slice route reads: `self.data` with the three
coordinate arrays. -/
structure LoadedCube where
  data : List (List (List FVal))
  ilCoords : List Int
  xlCoords : List Int
  sCoords : List ℚ
deriving DecidableEq

/-- The two failure kinds of the slice route. -/
inductive SliceErr where
  | rangeErr
  | notLoaded
deriving DecidableEq

/-- `processor.data.shape` components (lines 630-634). -/
def dimLen (c : LoadedCube) : SliceType → ℕ
  | .il => c.data.length
  | .xl => (c.data.headD []).length
  | .sample => ((c.data.headD []).headD []).length

/-- The `/api/slice` route body (lines 621-643): `NotLoadedError` when no
cube is loaded, `RangeError` when `index < 0 or index > shape - 1`,
otherwise the slice payload. -/
def getSlice (cube : Option LoadedCube) (ty : SliceType) (index : Int) :
    Except SliceErr SliceResult :=
  match cube with
  | none => .error .notLoaded
  | some c =>
      if index < 0 ∨ ((dimLen c ty : Int) - 1) < index then .error .rangeErr
      else .ok (getSliceData c.data c.ilCoords c.xlCoords c.sCoords ty index.toNat)

lemma getD_map_lt {α β : Type} (f : α → β) (l : List α) (i : ℕ) (d : α) (dd : β)
    (h : i < l.length) : (l.map f).getD i dd = f (l.getD i d) := by
  rw [List.getD_eq_getElem (l.map f) dd (by simpa using h), List.getD_eq_getElem l d h,
    List.getElem_map]

lemma getD_oob {α : Type} (l : List α) (j : ℕ) (d : α) (h : l.length ≤ j) :
    l.getD j d = d := by
  rw [List.getD_eq_getElem?_getD, List.getElem?_eq_none h]
  rfl

lemma headD_length_of_rect {rows : List (List FVal)} {n : ℕ}
    (hne : rows ≠ []) (hlen : ∀ r ∈ rows, r.length = n) :
    (rows.headD []).length = n := by
  cases rows with
  | nil => exact absurd rfl hne
  | cons r t => exact hlen r (List.mem_cons_self r t)

lemma cleanPlane_length (m : List (List FVal)) : (cleanPlane m).length = m.length :=
  List.length_map m sanitizeVec

lemma cleanPlane_rows {m : List (List FVal)} {n : ℕ} (h : ∀ r ∈ m, r.length = n) :
    ∀ r ∈ cleanPlane m, r.length = n := by
  intro r hr
  obtain ⟨r0, hr0, rfl⟩ := List.mem_map.mp hr
  rw [sanitizeVec, List.length_map]
  exact h r0 hr0

lemma transposeRect_length (m : List (List FVal)) :
    (transposeRect m).length = (m.headD []).length := by
  rw [transposeRect, List.length_map, List.length_range]

lemma transposeRect_rows (m : List (List FVal)) :
    ∀ row ∈ transposeRect m, row.length = m.length := by
  intro row hrow
  obtain ⟨j, _, rfl⟩ := List.mem_map.mp hrow
  exact List.length_map m _

lemma transposeRect_entry (m : List (List FVal)) (j k : ℕ)
    (hj : j < (m.headD []).length) (hk : k < m.length) :
    ((transposeRect m).getD j []).getD k (FVal.finite 0) =
      (m.getD k []).getD j (FVal.finite 0) := by
  rw [transposeRect,
    getD_map_lt (fun j => m.map (fun r => r.getD j (FVal.finite 0))) (List.range _) j 0 []
      (by simpa using hj)]
  rw [List.getD_eq_getElem (List.range _) 0 (by simpa using hj), List.getElem_range]
  exact getD_map_lt (fun r => r.getD j (FVal.finite 0)) m k [] (FVal.finite 0) hk

lemma sanitizeVec_getD (r : List FVal) (j : ℕ) (hj : j < r.length) :
    (sanitizeVec r).getD j (FVal.finite 0) = nanToNum (r.getD j (FVal.finite 0)) := by
  rw [sanitizeVec]
  exact getD_map_lt nanToNum r j (FVal.finite 0) (FVal.finite 0) hj

lemma cleanPlane_getD (m : List (List FVal)) (k : ℕ) (hk : k < m.length) :
    (cleanPlane m).getD k [] = sanitizeVec (m.getD k []) := by
  rw [cleanPlane]
  exact getD_map_lt sanitizeVec m k [] [] hk

lemma transpose_clean_spec (rows : List (List FVal)) (a b : ℕ)
    (hlen : rows.length = a) (hrows : ∀ r ∈ rows, r.length = b) (ha : 1 ≤ a) :
    (transposeRect (cleanPlane rows)).length = b
    ∧ (∀ row ∈ transposeRect (cleanPlane rows), row.length = a)
    ∧ ∀ j k, j < b → k < a →
        ((transposeRect (cleanPlane rows)).getD j []).getD k (FVal.finite 0) =
          nanToNum ((rows.getD k []).getD j (FVal.finite 0)) := by
  have hclen : (cleanPlane rows).length = a := by rw [cleanPlane_length, hlen]
  have hne : cleanPlane rows ≠ [] := by
    intro hnil
    rw [hnil] at hclen
    simp at hclen
    omega
  have hhead : ((cleanPlane rows).headD []).length = b :=
    headD_length_of_rect hne (cleanPlane_rows hrows)
  refine ⟨by rw [transposeRect_length, hhead], ?_, ?_⟩
  · intro row hrow
    rw [transposeRect_rows (cleanPlane rows) row hrow, hclen]
  · intro j k hj hk
    rw [transposeRect_entry (cleanPlane rows) j k (by rw [hhead]; exact hj)
        (by rw [hclen]; exact hk),
      cleanPlane_getD rows k (by rw [hlen]; exact hk),
      sanitizeVec_getD (rows.getD k []) j
        (by rw [hrows (rows.getD k []) (getD_mem rows k [] (by rw [hlen]; exact hk))]; exact hj)]

/-- Claim C3: for a loaded rectangular cube, the inline slice has shape
(sample_count, crossline_count) with axes (crossline, sample); the
crossline slice has shape (sample_count, inline_count) with axes
(inline, sample); the sample slice has shape (inline_count,
crossline_count) with axes (inline, crossline) and is not transposed; and
the inline/crossline slices are the fixed-dimension planes transposed so
the first output axis is the sample axis (up to re-sanitization of each
entry). -/
theorem c3_slice_shapes (data : List (List (List FVal))) (ilC xlC : List Int) (sC : List ℚ)
    (nIl nXl nS : ℕ)
    (hlen : data.length = nIl)
    (hrect : ∀ p ∈ data, p.length = nXl ∧ ∀ r ∈ p, r.length = nS)
    (hIl : 1 ≤ nIl) (hXl : 1 ≤ nXl) :
    (∀ i, i < nIl →
      (getSliceData data ilC xlC sC .il i).data.length = nS
      ∧ (∀ row ∈ (getSliceData data ilC xlC sC .il i).data, row.length = nXl)
      ∧ (getSliceData data ilC xlC sC .il i).coordsX = xlC.map (fun v => (v : ℚ))
      ∧ (getSliceData data ilC xlC sC .il i).coordsY = sC
      ∧ ∀ j k, j < nS → k < nXl →
          (((getSliceData data ilC xlC sC .il i).data.getD j []).getD k (FVal.finite 0)) =
            nanToNum (((data.getD i []).getD k []).getD j (FVal.finite 0)))
    ∧ (∀ i, i < nXl →
      (getSliceData data ilC xlC sC .xl i).data.length = nS
      ∧ (∀ row ∈ (getSliceData data ilC xlC sC .xl i).data, row.length = nIl)
      ∧ (getSliceData data ilC xlC sC .xl i).coordsX = ilC.map (fun v => (v : ℚ))
      ∧ (getSliceData data ilC xlC sC .xl i).coordsY = sC
      ∧ ∀ j k, j < nS → k < nIl →
          (((getSliceData data ilC xlC sC .xl i).data.getD j []).getD k (FVal.finite 0)) =
            nanToNum (((data.getD k []).getD i []).getD j (FVal.finite 0)))
    ∧ (∀ i, i < nS →
      (getSliceData data ilC xlC sC .sample i).data.length = nIl
      ∧ (∀ row ∈ (getSliceData data ilC xlC sC .sample i).data, row.length = nXl)
      ∧ (getSliceData data ilC xlC sC .sample i).coordsX = ilC.map (fun v => (v : ℚ))
      ∧ (getSliceData data ilC xlC sC .sample i).coordsY = xlC.map (fun v => (v : ℚ))
      ∧ ∀ k j, k < nIl → j < nXl →
          (((getSliceData data ilC xlC sC .sample i).data.getD k []).getD j (FVal.finite 0)) =
            nanToNum (((data.getD k []).getD j []).getD i (FVal.finite 0))) := by
  refine ⟨?_, ?_, ?_⟩
  · intro i hi
    have hmem : data.getD i [] ∈ data := getD_mem data i [] (by rw [hlen]; exact hi)
    have hspec := transpose_clean_spec (data.getD i []) nXl nS (hrect _ hmem).1
      (hrect _ hmem).2 hXl
    exact ⟨hspec.1, hspec.2.1, rfl, rfl, hspec.2.2⟩
  · intro i hi
    have hrows2 : ∀ r ∈ data.map (fun row => row.getD i []), r.length = nS := by
      intro r hr
      obtain ⟨row, hrow, rfl⟩ := List.mem_map.mp hr
      exact (hrect row hrow).2 _ (getD_mem row i [] (by rw [(hrect row hrow).1]; exact hi))
    have hspec := transpose_clean_spec (data.map (fun row => row.getD i [])) nIl nS
      (by rw [List.length_map, hlen]) hrows2 hIl
    refine ⟨hspec.1, hspec.2.1, rfl, rfl, ?_⟩
    intro j k hj hk
    show ((transposeRect (cleanPlane (data.map (fun row => row.getD i [])))).getD j
        []).getD k (FVal.finite 0) = _
    rw [hspec.2.2 j k hj hk,
      getD_map_lt (fun row => row.getD i []) data k [] [] (by rw [hlen]; exact hk)]
  · intro i hi
    have hrows2 : ∀ r ∈ data.map (fun row => row.map (fun col => col.getD i (FVal.finite 0))),
        r.length = nXl := by
      intro r hr
      obtain ⟨row, hrow, rfl⟩ := List.mem_map.mp hr
      rw [List.length_map]
      exact (hrect row hrow).1
    have hmlen : (data.map (fun row => row.map (fun col => col.getD i (FVal.finite 0)))).length
        = nIl := by rw [List.length_map, hlen]
    refine ⟨?_, ?_, rfl, rfl, ?_⟩
    · show (cleanPlane _).length = nIl
      rw [cleanPlane_length, hmlen]
    · intro row hrow
      exact cleanPlane_rows hrows2 row hrow
    · intro k j hk hj
      show ((cleanPlane _).getD k []).getD j (FVal.finite 0) = _
      rw [cleanPlane_getD _ k (by rw [hmlen]; exact hk),
        sanitizeVec_getD _ j (by
          rw [hrows2 _ (getD_mem _ k [] (by rw [hmlen]; exact hk))]
          exact hj)]
      rw [getD_map_lt (fun row => row.map (fun col => col.getD i (FVal.finite 0))) data k [] []
        (by rw [hlen]; exact hk)]
      rw [getD_map_lt (fun col => col.getD i (FVal.finite 0)) (data.getD k []) j []
        (FVal.finite 0) (by rw [(hrect _ (getD_mem data k [] (by rw [hlen]; exact hk))).1]; exact hj)]

theorem c3_slice_shapes_witness :
    (getSliceData [[[FVal.nan, FVal.finite 2]]] [1] [10] [0, 4] .il 0).data.length = 2
    ∧ (getSliceData [[[FVal.nan, FVal.finite 2]]] [1] [10] [0, 4] .il 0).coordsY = [0, 4]
    ∧ (((getSliceData [[[FVal.nan, FVal.finite 2]]] [1] [10] [0, 4] .il 0).data.getD 0
        []).getD 0 (FVal.finite 0)) =
      nanToNum (((([[[FVal.nan, FVal.finite 2]]] : List (List (List FVal))).getD 0 []).getD 0
        []).getD 0 (FVal.finite 0))
    ∧ (getSliceData [[[FVal.nan, FVal.finite 2]]] [1] [10] [0, 4] .sample 1).data.length = 1 := by
  have h := c3_slice_shapes [[[FVal.nan, FVal.finite 2]]] [1] [10] [0, 4] 1 1 2 (by decide)
    (by decide) (by decide) (by decide)
  exact ⟨(h.1 0 (by decide)).1, (h.1 0 (by decide)).2.2.2.1,
    (h.1 0 (by decide)).2.2.2.2 0 0 (by decide) (by decide),
    (h.2.2 1 (by decide)).1⟩

/-- Claim C4: with no cube loaded every slice request fails with
`NotLoadedError`; with a cube loaded the request fails with `RangeError`
exactly when the index lies outside `[0, dimension_length - 1]` for the
requested axis (in particular at `-1` and at `dimension_length`), and
returns the slice payload otherwise; failures carry no slice data. -/
theorem c4_slice_errors :
    (∀ (ty : SliceType) (idx : Int), getSlice none ty idx = .error .notLoaded)
    ∧ (∀ (c : LoadedCube) (ty : SliceType) (idx : Int),
        getSlice (some c) ty idx = .error .rangeErr ↔
          (idx < 0 ∨ ((dimLen c ty : Int) - 1) < idx))
    ∧ (∀ (c : LoadedCube) (ty : SliceType) (idx : Int),
        0 ≤ idx → idx ≤ (dimLen c ty : Int) - 1 →
        getSlice (some c) ty idx =
          .ok (getSliceData c.data c.ilCoords c.xlCoords c.sCoords ty idx.toNat))
    ∧ (∀ (c : LoadedCube) (ty : SliceType),
        getSlice (some c) ty (-1) = .error .rangeErr
        ∧ getSlice (some c) ty ((dimLen c ty : ℕ) : Int) = .error .rangeErr) := by
  refine ⟨fun ty idx => rfl, fun c ty idx => ?_, fun c ty idx h0 h1 => ?_, fun c ty => ?_⟩
  · constructor
    · intro h
      by_cases hcond : idx < 0 ∨ ((dimLen c ty : Int) - 1) < idx
      · exact hcond
      · rw [getSlice, if_neg hcond] at h
        exact absurd h (by simp)
    · intro hcond
      rw [getSlice, if_pos hcond]
  · have hcond : ¬(idx < 0 ∨ ((dimLen c ty : Int) - 1) < idx) := by omega
    rw [getSlice, if_neg hcond]
  · constructor
    · rw [getSlice, if_pos (Or.inl (by norm_num))]
    · rw [getSlice, if_pos (Or.inr (by omega))]

theorem c4_slice_errors_witness :
    getSlice none .il 0 = .error .notLoaded
    ∧ getSlice (some ⟨[[[FVal.finite 1]]], [1], [10], [0]⟩) .il 2 = .error .rangeErr
    ∧ getSlice (some ⟨[[[FVal.finite 1]]], [1], [10], [0]⟩) .il 0 =
        .ok (getSliceData [[[FVal.finite 1]]] [1] [10] [0] .il (Int.toNat 0))
    ∧ getSlice (some ⟨[[[FVal.finite 1]]], [1], [10], [0]⟩) .il (-1) = .error .rangeErr := by
  refine ⟨c4_slice_errors.1 .il 0, ?_, ?_, ?_⟩
  · exact (c4_slice_errors.2.1 ⟨[[[FVal.finite 1]]], [1], [10], [0]⟩ .il 2).mpr (by decide)
  · exact c4_slice_errors.2.2.1 ⟨[[[FVal.finite 1]]], [1], [10], [0]⟩ .il 0 (by decide) (by decide)
  · exact (c4_slice_errors.2.2.2 ⟨[[[FVal.finite 1]]], [1], [10], [0]⟩ .il).1

/- Finiteness of stored amplitudes and of all statistics inputs (C5). -/

/-- Line 197: `clean_data = np.nan_to_num(self.data, ...)` flattened — the
list every global statistic (min, max, mean, std, percentiles) is
computed over. -/
def cleanAll (xs : List FVal) : List FVal :=
  xs.map nanToNum

lemma nanToNum_finite (v : FVal) : (nanToNum v).isFinite = true := by
  cases v <;> simp [nanToNum, FVal.isFinite]

lemma sanitizeVec_finite {v : FVal} {xs : List FVal} (h : v ∈ sanitizeVec xs) :
    v.isFinite = true := by
  obtain ⟨w, _, rfl⟩ := List.mem_map.mp h
  exact nanToNum_finite w

lemma cell_write_mem (uIl uXl : List Int) (c : List (List (List FVal))) (t : TraceRec)
    (i j : ℕ) (v : FVal) (hv : v ∈ cellOf (writeTrace uIl uXl c t) i j) :
    v ∈ cellOf c i j ∨ v ∈ sanitizeVec t.samples := by
  rcases hi : idxOf? t.il uIl with _ | i2
  · rw [writeTrace_miss uIl uXl c t (Or.inl hi)] at hv
    exact Or.inl hv
  rcases hj : idxOf? t.xl uXl with _ | j2
  · rw [writeTrace_miss uIl uXl c t (Or.inr hj)] at hv
    exact Or.inl hv
  rw [writeTrace_hit uIl uXl c t i2 j2 hi hj] at hv
  by_cases hii : i2 = i
  · subst hii
    by_cases hlt : i2 < c.length
    · rw [cellOf, getD_set_self c i2 _ [] hlt] at hv
      by_cases hjj : j2 = j
      · subst hjj
        by_cases hlt2 : j2 < (c.getD i2 []).length
        · rw [getD_set_self _ j2 _ [] hlt2] at hv
          exact Or.inr hv
        · rw [List.set_eq_of_length_le (Nat.le_of_not_lt hlt2)] at hv
          exact Or.inl hv
      · rw [getD_set_ne _ j2 j _ [] hjj] at hv
        exact Or.inl hv
    · rw [cellOf, List.set_eq_of_length_le (Nat.le_of_not_lt hlt)] at hv
      exact Or.inl hv
  · rw [cellOf, getD_set_ne c i2 i _ [] hii] at hv
    exact Or.inl hv

lemma getD_replicate {α : Type} (x d : α) {a i : ℕ} (h : i < a) :
    (List.replicate a x).getD i d = x := by
  rw [List.getD_eq_getElem _ d (by simpa using h)]
  exact List.getElem_replicate x _

lemma emptyCube_cell {a b n i j : ℕ} {v : FVal}
    (hv : v ∈ cellOf (emptyCube a b n) i j) : v = FVal.finite 0 := by
  have h1 : cellOf (emptyCube a b n) i j = [] ∨
      cellOf (emptyCube a b n) i j = List.replicate n (FVal.finite 0) := by
    rw [cellOf, emptyCube]
    by_cases hi : i < a
    · rw [getD_replicate (List.replicate b (List.replicate n (FVal.finite 0))) [] hi]
      by_cases hj : j < b
      · rw [getD_replicate (List.replicate n (FVal.finite 0)) [] hj]
        exact Or.inr rfl
      · rw [getD_oob (List.replicate b (List.replicate n (FVal.finite 0))) j []
          (by simpa using Nat.le_of_not_lt hj)]
        exact Or.inl rfl
    · rw [getD_oob (List.replicate a (List.replicate b (List.replicate n (FVal.finite 0)))) i []
        (by simpa using Nat.le_of_not_lt hi)]
      left
      cases j <;> rfl
  rcases h1 with h1 | h1
  · rw [h1] at hv
    simp at hv
  · rw [h1] at hv
    exact List.eq_of_mem_replicate hv

lemma buildCube_cells_finite (uIl uXl : List Int) (nS : ℕ) (ts : List TraceRec)
    (i j : ℕ) : ∀ v ∈ cellOf (buildCube uIl uXl nS ts) i j, v.isFinite = true := by
  rw [buildCube]
  have main : ∀ (ts2 : List TraceRec) (c : List (List (List FVal))),
      (∀ i2 j2 : ℕ, ∀ v ∈ cellOf c i2 j2, v.isFinite = true) →
      ∀ v ∈ cellOf (ts2.foldl (writeTrace uIl uXl) c) i j, v.isFinite = true := by
    intro ts2
    induction ts2 with
    | nil => intro c hc v hv; exact hc i j v hv
    | cons t rest ih =>
        intro c hc v hv
        rw [List.foldl_cons] at hv
        refine ih (writeTrace uIl uXl c t) ?_ v hv
        intro i2 j2 w hw
        rcases cell_write_mem uIl uXl c t i2 j2 w hw with hw2 | hw2
        · exact hc i2 j2 w hw2
        · exact sanitizeVec_finite hw2
  refine main ts (emptyCube uIl.length uXl.length nS) ?_
  intro i2 j2 v hv
  rw [emptyCube_cell hv]
  rfl

lemma transpose_clean_finite (m : List (List FVal)) :
    ∀ row ∈ transposeRect (cleanPlane m), ∀ v ∈ row, v.isFinite = true := by
  intro row hrow v hv
  rw [transposeRect] at hrow
  obtain ⟨j, _, rfl⟩ := List.mem_map.mp hrow
  obtain ⟨r, hr, rfl⟩ := List.mem_map.mp hv
  obtain ⟨r0, _, rfl⟩ := List.mem_map.mp hr
  by_cases hj : j < (sanitizeVec r0).length
  · exact sanitizeVec_finite (getD_mem _ j (FVal.finite 0) hj)
  · rw [getD_oob _ j _ (Nat.le_of_not_lt hj)]
    rfl

lemma clean_plane_finite (m : List (List FVal)) :
    ∀ row ∈ cleanPlane m, ∀ v ∈ row, v.isFinite = true := by
  intro row hrow v hv
  obtain ⟨r0, _, rfl⟩ := List.mem_map.mp hrow
  exact sanitizeVec_finite hv

/-- Claim C5: every amplitude stored in the assembled cube is finite;
every element of the list the global statistics are computed over
(line 197) is finite; and every element of a served slice — the data the
per-slice statistics of lines 457-462 are computed over — is finite.
Non-finite inputs are replaced by 0 before storage (line 183) and before
any aggregate (lines 197 and 445). -/
theorem c5_finiteness :
    (∀ (uIl uXl : List Int) (nS : ℕ) (ts : List TraceRec) (i j : ℕ),
      ∀ v ∈ cellOf (buildCube uIl uXl nS ts) i j, v.isFinite = true)
    ∧ (∀ xs : List FVal, ∀ v ∈ cleanAll xs, v.isFinite = true)
    ∧ (∀ (data : List (List (List FVal))) (ilC xlC : List Int) (sC : List ℚ)
        (ty : SliceType) (idx : ℕ),
      ∀ row ∈ (getSliceData data ilC xlC sC ty idx).data, ∀ v ∈ row, v.isFinite = true) := by
  refine ⟨buildCube_cells_finite, ?_, ?_⟩
  · intro xs v hv
    obtain ⟨w, _, rfl⟩ := List.mem_map.mp hv
    exact nanToNum_finite w
  · intro data ilC xlC sC ty idx
    cases ty with
    | il => exact transpose_clean_finite _
    | xl => exact transpose_clean_finite _
    | sample => exact clean_plane_finite _

theorem c5_finiteness_witness :
    (FVal.finite 0).isFinite = true
    ∧ (FVal.finite 5).isFinite = true
    ∧ (FVal.finite 7).isFinite = true := by
  refine ⟨?_, ?_, ?_⟩
  · exact c5_finiteness.1 [1] [2] 1 [⟨1, 2, [FVal.nan]⟩] 0 0 (FVal.finite 0) (by decide)
  · exact c5_finiteness.2.1 [FVal.finite 5, FVal.posinf] (FVal.finite 5) (by decide)
  · exact c5_finiteness.2.2 [[[FVal.finite 7]]] [1] [10] [0] .sample 0 [FVal.finite 7]
      (by decide) (FVal.finite 7) (by decide)

/- Statistics engine (lines 195-220). -/

/-- `np.min` over a (flattened, non-empty) array. -/
def npMin (xs : List ℚ) : ℚ :=
  match xs with
  | [] => 0
  | x :: t => t.foldl min x

/-- `np.max`. -/
def npMax (xs : List ℚ) : ℚ :=
  match xs with
  | [] => 0
  | x :: t => t.foldl max x

/-- `np.mean`: arithmetic mean. -/
def npMean (xs : List ℚ) : ℚ :=
  xs.sum / (xs.length : ℚ)

/-- The linear-interpolation kernel of `np.percentile`: for a sorted array
`s` and fractional rank `h`, `s[k] + (h - k) * (s[k+1] - s[k])` with
`k = floor h` and the upper index clamped to the last element. -/
def interpAt (s : List ℚ) (h : ℚ) : ℚ :=
  s.getD (⌊h⌋).toNat 0 +
    (h - (((⌊h⌋).toNat : ℕ) : ℚ)) *
      (s.getD (min ((⌊h⌋).toNat + 1) (s.length - 1)) 0 - s.getD (⌊h⌋).toNat 0)

/-- `np.percentile(xs, q)` with the default linear interpolation:
rank `h = (n - 1) * q / 100` over the sorted data. -/
def npPercentile (xs : List ℚ) (q : ℚ) : ℚ :=
  interpAt (List.insertionSort (· ≤ ·) xs) (((xs.length : ℚ) - 1) * q / 100)

/-- The `amplitude_range` record (lines 209-220).  `std` is omitted from
the record because the square root leaves ℚ; its input list is the same
`clean` list, whose finiteness claim C5 covers. -/
structure AmpStats where
  actual_min : ℚ
  actual_max : ℚ
  display_min : ℚ
  display_max : ℚ
  mean : ℚ
  p1 : ℚ
  p99 : ℚ
  p5 : ℚ
  p95 : ℚ
deriving DecidableEq

/-- Lines 197-220: sanitize the flattened volume, then compute all
aggregates over it. -/
def ampStats (xs : List FVal) : AmpStats :=
  let clean := (cleanAll xs).map FVal.toRat
  ⟨npMin clean, npMax clean, npPercentile clean 5, npPercentile clean 95, npMean clean,
   npPercentile clean 1, npPercentile clean 99, npPercentile clean 5, npPercentile clean 95⟩

lemma foldlMin_le_init : ∀ (l : List ℚ) (a : ℚ), l.foldl min a ≤ a := by
  intro l
  induction l with
  | nil => intro a; exact le_refl a
  | cons x t ih =>
      intro a
      calc t.foldl min (min a x) ≤ min a x := ih (min a x)
        _ ≤ a := min_le_left a x

lemma foldlMin_le_mem : ∀ (l : List ℚ) (a y : ℚ), y ∈ l → l.foldl min a ≤ y := by
  intro l
  induction l with
  | nil => intro a y hy; simp at hy
  | cons x t ih =>
      intro a y hy
      rcases List.mem_cons.mp hy with rfl | hy2
      · calc t.foldl min (min a y) ≤ min a y := foldlMin_le_init t _
          _ ≤ y := min_le_right a y
      · exact ih (min a x) y hy2

lemma npMin_le {xs : List ℚ} {y : ℚ} (hy : y ∈ xs) : npMin xs ≤ y := by
  cases xs with
  | nil => simp at hy
  | cons x t =>
      rcases List.mem_cons.mp hy with rfl | hy2
      · exact foldlMin_le_init t y
      · exact foldlMin_le_mem t x y hy2

lemma init_le_foldlMax : ∀ (l : List ℚ) (a : ℚ), a ≤ l.foldl max a := by
  intro l
  induction l with
  | nil => intro a; exact le_refl a
  | cons x t ih =>
      intro a
      calc a ≤ max a x := le_max_left a x
        _ ≤ t.foldl max (max a x) := ih (max a x)

lemma mem_le_foldlMax : ∀ (l : List ℚ) (a y : ℚ), y ∈ l → y ≤ l.foldl max a := by
  intro l
  induction l with
  | nil => intro a y hy; simp at hy
  | cons x t ih =>
      intro a y hy
      rcases List.mem_cons.mp hy with rfl | hy2
      · calc y ≤ max a y := le_max_right a y
          _ ≤ t.foldl max (max a y) := init_le_foldlMax t _
      · exact ih (max a x) y hy2

lemma le_npMax {xs : List ℚ} {y : ℚ} (hy : y ∈ xs) : y ≤ npMax xs := by
  cases xs with
  | nil => simp at hy
  | cons x t =>
      rcases List.mem_cons.mp hy with rfl | hy2
      · exact init_le_foldlMax t y
      · exact mem_le_foldlMax t x y hy2

lemma sorted_getD_mono (s : List ℚ) (hs : List.Sorted (· ≤ ·) s) {i j : ℕ}
    (hij : i ≤ j) (hj : j < s.length) : s.getD i 0 ≤ s.getD j 0 := by
  have hi : i < s.length := lt_of_le_of_lt hij hj
  rw [List.getD_eq_getElem s 0 hi, List.getD_eq_getElem s 0 hj]
  rcases eq_or_lt_of_le hij with rfl | hlt
  · exact le_refl _
  · exact hs.rel_get_of_lt (show (⟨i, hi⟩ : Fin s.length) < ⟨j, hj⟩ from hlt)

lemma interpAt_facts (s : List ℚ) (hs : List.Sorted (· ≤ ·) s) (hlen : 1 ≤ s.length)
    (h : ℚ) (h0 : 0 ≤ h) (hub : h ≤ (s.length : ℚ) - 1) :
    s.getD ((⌊h⌋).toNat) 0 ≤ interpAt s h
    ∧ interpAt s h ≤ s.getD (min ((⌊h⌋).toNat + 1) (s.length - 1)) 0
    ∧ (⌊h⌋).toNat ≤ s.length - 1 := by
  have hfl0 : (0:ℤ) ≤ ⌊h⌋ := Int.floor_nonneg.mpr h0
  have hkcast : (((⌊h⌋).toNat : ℕ) : ℚ) = ((⌊h⌋ : ℤ) : ℚ) := by
    exact_mod_cast congrArg (fun z : ℤ => (z : ℚ)) (Int.toNat_of_nonneg hfl0)
  have hkq : (((⌊h⌋).toNat : ℕ) : ℚ) ≤ h := by
    rw [hkcast]
    exact Int.floor_le h
  have hk1 : h < (((⌊h⌋).toNat : ℕ) : ℚ) + 1 := by
    rw [hkcast]
    exact Int.lt_floor_add_one h
  have hkn : (⌊h⌋).toNat ≤ s.length - 1 := by
    have hcast : ((s.length - 1 : ℕ) : ℚ) = (s.length : ℚ) - 1 := by
      rw [Nat.cast_sub hlen, Nat.cast_one]
    have h2 : h ≤ ((s.length - 1 : ℕ) : ℚ) := by rw [hcast]; exact hub
    have h3 : ⌊h⌋ ≤ ((s.length - 1 : ℕ) : ℤ) := by
      have := Int.floor_mono h2
      rwa [Int.floor_natCast] at this
    omega
  have hkk1 : (⌊h⌋).toNat ≤ min ((⌊h⌋).toNat + 1) (s.length - 1) :=
    le_min (Nat.le_succ _) hkn
  have hk1n : min ((⌊h⌋).toNat + 1) (s.length - 1) < s.length := by
    have := min_le_right ((⌊h⌋).toNat + 1) (s.length - 1)
    omega
  have hlohi : s.getD ((⌊h⌋).toNat) 0 ≤ s.getD (min ((⌊h⌋).toNat + 1) (s.length - 1)) 0 :=
    sorted_getD_mono s hs hkk1 hk1n
  refine ⟨?_, ?_, hkn⟩
  · have hnn : 0 ≤ (h - (((⌊h⌋).toNat : ℕ) : ℚ)) *
        (s.getD (min ((⌊h⌋).toNat + 1) (s.length - 1)) 0 - s.getD ((⌊h⌋).toNat) 0) :=
      mul_nonneg (by linarith) (by linarith)
    rw [interpAt]
    linarith
  · have hmul : (h - (((⌊h⌋).toNat : ℕ) : ℚ)) *
        (s.getD (min ((⌊h⌋).toNat + 1) (s.length - 1)) 0 - s.getD ((⌊h⌋).toNat) 0) ≤
        1 * (s.getD (min ((⌊h⌋).toNat + 1) (s.length - 1)) 0 - s.getD ((⌊h⌋).toNat) 0) :=
      mul_le_mul_of_nonneg_right (by linarith) (by linarith)
    rw [interpAt]
    linarith

lemma interpAt_mono (s : List ℚ) (hs : List.Sorted (· ≤ ·) s) (hlen : 1 ≤ s.length)
    {h1 h2 : ℚ} (h10 : 0 ≤ h1) (h12 : h1 ≤ h2) (hub : h2 ≤ (s.length : ℚ) - 1) :
    interpAt s h1 ≤ interpAt s h2 := by
  have hf1 := interpAt_facts s hs hlen h1 h10 (le_trans h12 hub)
  have hf2 := interpAt_facts s hs hlen h2 (le_trans h10 h12) hub
  have hk12 : (⌊h1⌋).toNat ≤ (⌊h2⌋).toNat := by
    have := Int.floor_mono h12
    omega
  rcases eq_or_lt_of_le hk12 with heq | hlt
  · have hkk1 : (⌊h1⌋).toNat ≤ min ((⌊h1⌋).toNat + 1) (s.length - 1) :=
      le_min (Nat.le_succ _) hf1.2.2
    have hk1n : min ((⌊h1⌋).toNat + 1) (s.length - 1) < s.length := by
      have := min_le_right ((⌊h1⌋).toNat + 1) (s.length - 1)
      omega
    have hlohi : s.getD ((⌊h1⌋).toNat) 0 ≤
        s.getD (min ((⌊h1⌋).toNat + 1) (s.length - 1)) 0 :=
      sorted_getD_mono s hs hkk1 hk1n
    rw [interpAt, interpAt, ← heq]
    have hmul := mul_le_mul_of_nonneg_right
      (sub_le_sub_right h12 (((⌊h1⌋).toNat : ℕ) : ℚ)) (sub_nonneg.mpr hlohi)
    linarith
  · have step : s.getD (min ((⌊h1⌋).toNat + 1) (s.length - 1)) 0 ≤
        s.getD ((⌊h2⌋).toNat) 0 := by
      refine sorted_getD_mono s hs ?_ ?_
      · have := hf2.2.2
        omega
      · have := hf2.2.2
        omega
    calc interpAt s h1 ≤ _ := hf1.2.1
      _ ≤ _ := step
      _ ≤ interpAt s h2 := hf2.1

lemma npPercentile_le_npPercentile (xs : List ℚ) (hne : xs ≠ []) {q1 q2 : ℚ}
    (hq0 : 0 ≤ q1) (hq12 : q1 ≤ q2) (hq100 : q2 ≤ 100) :
    npPercentile xs q1 ≤ npPercentile xs q2 := by
  have hslen : (List.insertionSort (· ≤ ·) xs).length = xs.length :=
    List.length_insertionSort _ xs
  have hlen1 : 1 ≤ (List.insertionSort (· ≤ ·) xs).length := by
    rw [hslen]
    exact List.length_pos.mpr hne
  have hs : List.Sorted (· ≤ ·) (List.insertionSort (· ≤ ·) xs) :=
    List.sorted_insertionSort _ xs
  have hnn : (0:ℚ) ≤ (xs.length : ℚ) - 1 := by
    have : (1:ℚ) ≤ (xs.length : ℚ) := by exact_mod_cast hslen ▸ hlen1
    linarith
  refine interpAt_mono _ hs hlen1 ?_ ?_ ?_
  · exact div_nonneg (mul_nonneg hnn hq0) (by norm_num)
  · have := mul_le_mul_of_nonneg_left hq12 hnn
    linarith
  · rw [hslen]
    have := mul_le_mul_of_nonneg_left hq100 hnn
    linarith

lemma npPercentile_bounds (xs : List ℚ) (hne : xs ≠ []) {q : ℚ}
    (hq0 : 0 ≤ q) (hq100 : q ≤ 100) :
    npMin xs ≤ npPercentile xs q ∧ npPercentile xs q ≤ npMax xs := by
  have hslen : (List.insertionSort (· ≤ ·) xs).length = xs.length :=
    List.length_insertionSort _ xs
  have hlen1 : 1 ≤ (List.insertionSort (· ≤ ·) xs).length := by
    rw [hslen]
    exact List.length_pos.mpr hne
  have hs : List.Sorted (· ≤ ·) (List.insertionSort (· ≤ ·) xs) :=
    List.sorted_insertionSort _ xs
  have hnn : (0:ℚ) ≤ (xs.length : ℚ) - 1 := by
    have : (1:ℚ) ≤ (xs.length : ℚ) := by exact_mod_cast hslen ▸ hlen1
    linarith
  have h0 : 0 ≤ ((xs.length : ℚ) - 1) * q / 100 :=
    div_nonneg (mul_nonneg hnn hq0) (by norm_num)
  have hub : ((xs.length : ℚ) - 1) * q / 100 ≤
      ((List.insertionSort (· ≤ ·) xs).length : ℚ) - 1 := by
    rw [hslen]
    have := mul_le_mul_of_nonneg_left hq100 hnn
    linarith
  have hf := interpAt_facts _ hs hlen1 (((xs.length : ℚ) - 1) * q / 100) h0 hub
  have hperm := List.perm_insertionSort (· ≤ ·) xs
  have hloMem : (List.insertionSort (· ≤ ·) xs).getD
      ((⌊((xs.length : ℚ) - 1) * q / 100⌋).toNat) 0 ∈ xs := by
    refine hperm.mem_iff.mp (getD_mem _ _ 0 ?_)
    have := hf.2.2
    omega
  have hhiMem : (List.insertionSort (· ≤ ·) xs).getD
      (min ((⌊((xs.length : ℚ) - 1) * q / 100⌋).toNat + 1)
        ((List.insertionSort (· ≤ ·) xs).length - 1)) 0 ∈ xs := by
    refine hperm.mem_iff.mp (getD_mem _ _ 0 ?_)
    have := min_le_right ((⌊((xs.length : ℚ) - 1) * q / 100⌋).toNat + 1)
      ((List.insertionSort (· ≤ ·) xs).length - 1)
    omega
  exact ⟨le_trans (npMin_le hloMem) hf.1, le_trans hf.2.1 (le_npMax hhiMem)⟩

/-- Claim C6: for a non-empty volume the statistics computed over the
sanitized flattened amplitudes satisfy p1 ≤ p5 ≤ p95 ≤ p99, with
actual_min ≤ p1 and p99 ≤ actual_max. -/
theorem c6_percentile_order (xs : List FVal) (hx : xs ≠ []) :
    (ampStats xs).p1 ≤ (ampStats xs).p5
    ∧ (ampStats xs).p5 ≤ (ampStats xs).p95
    ∧ (ampStats xs).p95 ≤ (ampStats xs).p99
    ∧ (ampStats xs).actual_min ≤ (ampStats xs).p1
    ∧ (ampStats xs).p99 ≤ (ampStats xs).actual_max := by
  have hclean : ((cleanAll xs).map FVal.toRat) ≠ [] := by
    intro hnil
    apply hx
    simpa [cleanAll] using hnil
  refine ⟨?_, ?_, ?_, ?_, ?_⟩
  · exact npPercentile_le_npPercentile _ hclean (by norm_num) (by norm_num) (by norm_num)
  · exact npPercentile_le_npPercentile _ hclean (by norm_num) (by norm_num) (by norm_num)
  · exact npPercentile_le_npPercentile _ hclean (by norm_num) (by norm_num) (by norm_num)
  · exact (npPercentile_bounds _ hclean (by norm_num) (by norm_num)).1
  · exact (npPercentile_bounds _ hclean (by norm_num) (by norm_num)).2

theorem c6_percentile_order_witness :
    (ampStats [FVal.finite 3, FVal.nan, FVal.finite (-1)]).p1 ≤
      (ampStats [FVal.finite 3, FVal.nan, FVal.finite (-1)]).p5
    ∧ (ampStats [FVal.finite 3, FVal.nan, FVal.finite (-1)]).p5 ≤
      (ampStats [FVal.finite 3, FVal.nan, FVal.finite (-1)]).p95
    ∧ (ampStats [FVal.finite 3, FVal.nan, FVal.finite (-1)]).p95 ≤
      (ampStats [FVal.finite 3, FVal.nan, FVal.finite (-1)]).p99
    ∧ (ampStats [FVal.finite 3, FVal.nan, FVal.finite (-1)]).actual_min ≤
      (ampStats [FVal.finite 3, FVal.nan, FVal.finite (-1)]).p1
    ∧ (ampStats [FVal.finite 3, FVal.nan, FVal.finite (-1)]).p99 ≤
      (ampStats [FVal.finite 3, FVal.nan, FVal.finite (-1)]).actual_max :=
  c6_percentile_order [FVal.finite 3, FVal.nan, FVal.finite (-1)] (by decide)

/- Ingestion pipeline state (load_segy_file, lines 97-241). -/

/-- An already-decoded SEGY file: the sample (depth/time) axis
`f.samples` and the trace sequence. -/
structure SegyFile where
  samples : List ℚ
  traces : List RawTrace
deriving DecidableEq

/-- The mutable processor fields observable through the API:
`self.data`, the three coordinate arrays used by `get_slice_data`, the
ranges and statistics used by `get_cube_info`, and the geometry. -/
structure ProcState where
  data : Option (List (List (List FVal)))
  ilCoords : List Int
  xlCoords : List Int
  sCoords : List ℚ
  ilRange : List Int
  xlRange : List Int
  sRange : List ℚ
  ampRange : Option AmpStats
  geom : Option SurveyGeometry
deriving DecidableEq

/-- `load_segy_file` (lines 97-241) as a state transition returning the
new state and the success flag.  Mutation order follows the source:
`self.sample_coords` is assigned at line 110, before the
`min(unique_inlines)` call at line 158 that raises (caught at line 238,
returning `False`) when the file has no traces; every numeric step after
line 158 is total, so in the model a parsed file fails exactly when its
trace list is empty. -/
def loadSegy (az : ℚ → ℚ → ℚ) (st : ProcState) (f : SegyFile) : ProcState × Bool :=
  let st1 := { st with sCoords := f.samples }
  if f.traces.isEmpty then (st1, false)
  else
    let n := f.traces.length
    let entries := f.traces.enum.map (fun p => locateTrace n p.1 p.2)
    let uIl := uniqueSorted (entries.map (fun e => e.il))
    let uXl := uniqueSorted (entries.map (fun e => e.xl))
    let geo := calcGeometry az entries uIl uXl
    let cube := buildCube uIl uXl f.samples.length
      (f.traces.enum.map (fun p =>
        (⟨(locateTrace n p.1 p.2).il, (locateTrace n p.1 p.2).xl, p.2.samples⟩ : TraceRec)))
    ({ data := some cube, ilCoords := uIl, xlCoords := uXl, sCoords := f.samples,
       ilRange := uIl, xlRange := uXl, sRange := f.samples,
       ampRange := some (ampStats cube.flatten.flatten), geom := some geo }, true)

/-- The slice route reading the processor state (lines 621-643 plus
`get_slice_data`): `self.data` together with the coordinate arrays the
route serves. -/
def stateSlice (st : ProcState) (ty : SliceType) (idx : Int) : Except SliceErr SliceResult :=
  getSlice (st.data.map (fun d => ⟨d, st.ilCoords, st.xlCoords, st.sCoords⟩)) ty idx

instance : DecidableEq (Except SliceErr SliceResult) := fun a b =>
  match a, b with
  | .ok x, .ok y =>
      if h : x = y then isTrue (by rw [h]) else isFalse (fun hc => h (Except.ok.inj hc))
  | .error x, .error y =>
      if h : x = y then isTrue (by rw [h]) else isFalse (fun hc => h (Except.error.inj hc))
  | .ok _, .error _ => isFalse (fun hc => Except.noConfusion hc)
  | .error _, .ok _ => isFalse (fun hc => Except.noConfusion hc)

/-- A loaded session: a 1x1x1 cube with sample axis `[0]`. -/
def c9PrevState : ProcState :=
  { data := some [[[FVal.finite 1]]], ilCoords := [1], xlCoords := [2], sCoords := [0],
    ilRange := [1], xlRange := [2], sRange := [0],
    ampRange := some ⟨1, 1, 1, 1, 1, 1, 1, 1, 1⟩, geom := some ⟨0, 90, false⟩ }

/-- A decoded file with two samples and no traces: ingestion fails at
`min(unique_inlines)`. -/
def c9BadFile : SegyFile :=
  { samples := [5, 6], traces := [] }

/-- Claim C9 is contradicted by the code: a failed ingestion does leave
the previous amplitudes in place, but `self.sample_coords` has already
been overwritten (line 110) before the failure point (line 158), so the
observable state changes: an inline slice served after the failed run
pairs the old cube with the new file's sample axis. -/
theorem c9_failed_load_mutates :
    (loadSegy azZero c9PrevState c9BadFile).2 = false
    ∧ (loadSegy azZero c9PrevState c9BadFile).1.data = c9PrevState.data
    ∧ (loadSegy azZero c9PrevState c9BadFile).1 = { c9PrevState with sCoords := [5, 6] }
    ∧ (loadSegy azZero c9PrevState c9BadFile).1.sCoords ≠ c9PrevState.sCoords
    ∧ stateSlice (loadSegy azZero c9PrevState c9BadFile).1 .il 0 ≠
        stateSlice c9PrevState .il 0 := by
  exact ⟨rfl, rfl, rfl, by decide, by decide⟩
